import Mathlib

/-!
Verification development for the EPG proxy core (Cloudflare Worker).

The definitions below are shallow embeddings of the JavaScript source:
  * src/js/utils.js  : smartFind / findChannelInfo / extractPrograms /
                       normalizeName / cleanContent / formatTime
  * src/js/logic.js  : CHANNEL_ALIASES / FLAT_CHANNELS / normalizeChannelId,
                       and the memory cache plus request coalescing logic of
                       fetchAndFind (modelled as a step machine, one step per
                       atomic segment between await points).

Strings are modelled as lists of characters; JavaScript regular expressions
are hand compiled to deterministic scanning functions over those lists (each
regex used by the source is simple enough that its backtracking behaviour is
fully determined; comments at each function record the regex it implements).
JavaScript toUpperCase is modelled on the ASCII range (identity elsewhere),
which is exact for every character class this program manipulates.
-/

set_option maxRecDepth 8192

/-! ## JavaScript string primitives -/

/-- ASCII model of String.prototype.toUpperCase (identity off a-z). -/
def jsUpper : Char → Char
  | 'a' => 'A' | 'b' => 'B' | 'c' => 'C' | 'd' => 'D' | 'e' => 'E' | 'f' => 'F'
  | 'g' => 'G' | 'h' => 'H' | 'i' => 'I' | 'j' => 'J' | 'k' => 'K' | 'l' => 'L'
  | 'm' => 'M' | 'n' => 'N' | 'o' => 'O' | 'p' => 'P' | 'q' => 'Q' | 'r' => 'R'
  | 's' => 'S' | 't' => 'T' | 'u' => 'U' | 'v' => 'V' | 'w' => 'W' | 'x' => 'X'
  | 'y' => 'Y' | 'z' => 'Z' | c => c

/-- The character class matched by the regex \s and trimmed by trim(). -/
def jsWhitespace (c : Char) : Bool :=
  c == ' ' || c == '\t' || c == '\n' || c == '\r' ||
  c.toNat == 11 || c.toNat == 12 || c.toNat == 0xa0 || c.toNat == 0x1680 ||
  (0x2000 ≤ c.toNat && c.toNat ≤ 0x200a) ||
  c.toNat == 0x2028 || c.toNat == 0x2029 || c.toNat == 0x202f ||
  c.toNat == 0x205f || c.toNat == 0x3000 || c.toNat == 0xfeff

/-- String.prototype.trim. -/
def jsTrim (l : List Char) : List Char :=
  ((l.dropWhile jsWhitespace).reverse.dropWhile jsWhitespace).reverse

/-- All indices at which pat occurs in hay, in increasing order. -/
def occs (hay pat : List Char) : List Nat :=
  (List.range (hay.length + 1)).filter (fun i => pat.isPrefixOf (hay.drop i))

/-- String.prototype.indexOf(pat, start): first occurrence at or after start. -/
def firstFrom (hay pat : List Char) (start : Nat) : Option Nat :=
  (occs hay pat).find? (fun i => start ≤ i)

/-- String.prototype.lastIndexOf(pat, pos): last occurrence at or before pos. -/
def lastUpTo (hay pat : List Char) (pos : Nat) : Option Nat :=
  ((occs hay pat).filter (fun i => i ≤ pos)).getLast?

/-- String.prototype.substring(a, b) for a ≤ b. -/
def subL (l : List Char) (a b : Nat) : List Char := (l.drop a).take (b - a)

/-- Case insensitive comparison of pat against hay at position i
    (model of matching an escaped literal under the regex i flag). -/
def ciAt (hay pat : List Char) (i : Nat) : Bool :=
  ((hay.drop i).take pat.length).map jsUpper == pat.map jsUpper

/-! ## utils.js : normalizeName, formatTime, cleanContent -/

/-- utils.js normalizeName: trim, toUpperCase, remove the class [\s\-_]
    (note: the em-dash is NOT in this class; it is only removed by
    logic.js normalizeChannelId). -/
def normalizeName (l : List Char) : List Char :=
  ((jsTrim l).map jsUpper).filter (fun c => !(jsWhitespace c || c == '-' || c == '_'))

/-- utils.js formatTime: timestamps shorter than 12 characters give "",
    otherwise substring(8,10) ++ ":" ++ substring(10,12). -/
def formatTime (raw : List Char) : List Char :=
  if raw.length < 12 then [] else subL raw 8 10 ++ ':' :: subL raw 10 12

def cdataOpen : List Char := "<![CDATA[".data

def cdataClose : List Char := "]]>".data

/-- The global replace of /<!\[CDATA\[([\s\S]*?)\]\]>/gi by its capture:
    repeatedly find the next case-insensitive CDATA opener, keep the text up
    to the first subsequent closer, and continue after the closer. -/
def stripCdata : Nat → List Char → List Char
  | 0, l => l
  | fuel+1, l =>
    match (List.range (l.length + 1)).find? (fun i => ciAt l cdataOpen i) with
    | none => l
    | some i =>
      match firstFrom l cdataClose (i + 9) with
      | none => l
      | some j => subL l 0 i ++ subL l (i + 9) j ++ stripCdata fuel (l.drop (j + 3))

/-- utils.js cleanContent: strip CDATA wrappers, then trim. -/
def cleanContent (l : List Char) : List Char := jsTrim (stripCdata (l.length + 1) l)

/-! ## logic.js : channel alias table and normalizeChannelId -/

def CHANNEL_ALIASES : List (String × List String) := [
  ("CCTV1", ["CCTV-1", "CCTV－1", "CCTV_1", "CCTV 1", "CCTV1综合", "CCTV-1综合", "CCTV1综合频道", "CCTV1HD", "CCTV-1HD", "CCTV1高清", "CCTV-1高清", "CCTV1超清", "CCTV14K", "CCTV-14K", "中央1台", "中央一台", "中央电视台1", "中央电视台综合", "CCTV1(综合)", "CCTV-1(综合)", "CCTV1 综合", "CCTV1FHD", "CCTV1UHD", "CCTV综合"]),
  ("CCTV2", ["CCTV-2", "CCTV－2", "CCTV_2", "CCTV 2", "CCTV2财经", "CCTV-2财经", "CCTV2经济", "CCTV2HD", "CCTV-2HD", "CCTV2高清", "中央2台", "中央二台", "中央电视台2", "CCTV2(财经)", "CCTV-2(财经)", "CCTV财经"]),
  ("CCTV3", ["CCTV-3", "CCTV－3", "CCTV_3", "CCTV 3", "CCTV3综艺", "CCTV-3综艺", "CCTV3综艺频道", "CCTV3HD", "CCTV-3HD", "CCTV3高清", "中央3台", "中央三台", "中央电视台3", "CCTV3(综艺)", "CCTV-3(综艺)", "CCTV综艺"]),
  ("CCTV4", ["CCTV-4", "CCTV－4", "CCTV_4", "CCTV 4", "CCTV4中文国际", "CCTV-4中文国际", "CCTV4国际", "CCTV4HD", "CCTV-4HD", "CCTV4高清", "中央4台", "中央四台", "中央电视台4", "CCTV4(中文国际)", "CCTV-4(中文国际)", "CCTV4亚洲", "CCTV4欧洲", "CCTV4美洲"]),
  ("CCTV5", ["CCTV-5", "CCTV－5", "CCTV_5", "CCTV 5", "CCTV5体育", "CCTV-5体育", "CCTV5体育频道", "CCTV5HD", "CCTV-5HD", "CCTV5高清", "中央5台", "中央五台", "中央电视台5", "CCTV5(体育)", "CCTV-5(体育)", "CCTV体育", "CCTV5FHD", "CCTV5UHD", "CCTV54K"]),
  ("CCTV5+", ["CCTV-5+", "CCTV－5+", "CCTV_5+", "CCTV 5+", "CCTV5+体育", "CCTV5+体育赛事", "CCTV-5+体育赛事", "CCTV5+HD", "CCTV-5+HD", "CCTV5+高清", "CCTV5PLUS", "CCTV-5PLUS", "CCTV5PLUS体育", "中央5+台", "CCTV5赛事", "CCTV体育赛事", "CCTV5+(体育赛事)", "CCTV-5+(体育赛事)", "CCTV5+ 体育赛事", "CCTV 5+ 体育"]),
  ("CCTV6", ["CCTV-6", "CCTV－6", "CCTV_6", "CCTV 6", "CCTV6电影", "CCTV-6电影", "CCTV6电影频道", "CCTV6HD", "CCTV-6HD", "CCTV6高清", "中央6台", "中央六台", "中央电视台6", "CCTV6(电影)", "CCTV-6(电影)", "CCTV电影"]),
  ("CCTV7", ["CCTV-7", "CCTV－7", "CCTV_7", "CCTV 7", "CCTV7国防军事", "CCTV-7国防军事", "CCTV7军事", "CCTV7农业", "CCTV7军事农业", "CCTV7HD", "CCTV-7HD", "CCTV7高清", "中央7台", "中央七台", "中央电视台7", "CCTV7(国防军事)", "CCTV-7(国防军事)", "CCTV国防军事"]),
  ("CCTV8", ["CCTV-8", "CCTV－8", "CCTV_8", "CCTV 8", "CCTV8电视剧", "CCTV-8电视剧", "CCTV8影视", "CCTV8HD", "CCTV-8HD", "CCTV8高清", "中央8台", "中央八台", "中央电视台8", "CCTV8(电视剧)", "CCTV-8(电视剧)", "CCTV电视剧"]),
  ("CCTV9", ["CCTV-9", "CCTV－9", "CCTV_9", "CCTV 9", "CCTV9纪录", "CCTV-9纪录", "CCTV9纪录片", "CCTV9HD", "CCTV-9HD", "CCTV9高清", "中央9台", "中央九台", "中央电视台9", "CCTV9(纪录)", "CCTV-9(纪录)", "CCTV纪录"]),
  ("CCTV10", ["CCTV-10", "CCTV－10", "CCTV_10", "CCTV 10", "CCTV10科教", "CCTV-10科教", "CCTV10科学", "CCTV10HD", "CCTV-10HD", "CCTV10高清", "中央10台", "中央十台", "中央电视台10", "CCTV10(科教)", "CCTV-10(科教)", "CCTV科教"]),
  ("CCTV11", ["CCTV-11", "CCTV－11", "CCTV_11", "CCTV 11", "CCTV11戏曲", "CCTV-11戏曲", "CCTV11戏曲频道", "CCTV11HD", "CCTV-11HD", "CCTV11高清", "中央11台", "中央十一台", "中央电视台11", "CCTV11(戏曲)", "CCTV-11(戏曲)", "CCTV戏曲"]),
  ("CCTV12", ["CCTV-12", "CCTV－12", "CCTV_12", "CCTV 12", "CCTV12社会与法", "CCTV-12社会与法", "CCTV12法制", "CCTV12HD", "CCTV-12HD", "CCTV12高清", "中央12台", "中央十二台", "中央电视台12", "CCTV12(社会与法)", "CCTV-12(社会与法)", "CCTV社会与法"]),
  ("CCTV13", ["CCTV-13", "CCTV－13", "CCTV_13", "CCTV 13", "CCTV13新闻", "CCTV-13新闻", "CCTV13新闻频道", "CCTV13HD", "CCTV-13HD", "CCTV13高清", "中央13台", "中央十三台", "中央电视台13", "CCTV13(新闻)", "CCTV-13(新闻)", "CCTV新闻"]),
  ("CCTV14", ["CCTV-14", "CCTV－14", "CCTV_14", "CCTV 14", "CCTV14少儿", "CCTV-14少儿", "CCTV14儿童", "CCTV14HD", "CCTV-14HD", "CCTV14高清", "中央14台", "中央十四台", "中央电视台14", "CCTV14(少儿)", "CCTV-14(少儿)", "CCTV少儿"]),
  ("CCTV15", ["CCTV-15", "CCTV－15", "CCTV_15", "CCTV 15", "CCTV15音乐", "CCTV-15音乐", "CCTV15音乐频道", "CCTV15HD", "CCTV-15HD", "CCTV15高清", "中央15台", "中央十五台", "中央电视台15", "CCTV15(音乐)", "CCTV-15(音乐)", "CCTV音乐"]),
  ("CCTV16", ["CCTV-16", "CCTV－16", "CCTV_16", "CCTV 16", "CCTV16奥林匹克", "CCTV-16奥林匹克", "CCTV16奥运", "CCTV16HD", "CCTV-16HD", "CCTV16高清", "CCTV164K", "CCTV-164K", "中央16台", "中央十六台", "中央电视台16", "CCTV16(奥林匹克)", "CCTV-16(奥林匹克)", "CCTV奥林匹克"]),
  ("CCTV17", ["CCTV-17", "CCTV－17", "CCTV_17", "CCTV 17", "CCTV17农业农村", "CCTV-17农业农村", "CCTV17农业", "CCTV17HD", "CCTV-17HD", "CCTV17高清", "中央17台", "中央十七台", "中央电视台17", "CCTV17(农业农村)", "CCTV-17(农业农村)", "CCTV农业农村"]),
  ("湖南卫视", ["湖南", "湖南台", "湖南TV", "HUNAN", "HUNANTV", "湖南卫视HD", "湖南卫视高清", "湖南卫视超清", "湖南HD", "湖南高清", "湖南FHD", "湖南4K", "湖南卫视(高清)", "HUNANSTV", "湖南省卫视", "湖南卫视1080P", "湖南卫视UHD"]),
  ("浙江卫视", ["浙江", "浙江台", "浙江TV", "ZHEJIANG", "ZJTV", "浙江卫视HD", "浙江卫视高清", "浙江卫视超清", "浙江HD", "浙江高清", "浙江FHD", "浙江4K", "浙江卫视(高清)", "ZHEJIANGTV", "浙江省卫视"]),
  ("江苏卫视", ["江苏", "江苏台", "江苏TV", "JIANGSU", "JSTV", "江苏卫视HD", "江苏卫视高清", "江苏卫视超清", "江苏HD", "江苏高清", "江苏FHD", "江苏4K", "江苏卫视(高清)", "JIANGSUTV", "江苏省卫视"]),
  ("东方卫视", ["东方", "东方台", "东方TV", "DONGFANG", "DFTV", "上海卫视", "上海东方", "上海东方卫视", "东方卫视HD", "东方卫视高清", "东方卫视超清", "东方HD", "东方高清", "东方FHD", "东方4K", "东方卫视(高清)", "DONGFANGTV", "上海卫视HD"]),
  ("北京卫视", ["北京", "北京台", "北京TV", "BEIJING", "BJTV", "北京卫视HD", "北京卫视高清", "北京卫视超清", "北京HD", "北京高清", "北京FHD", "北京4K", "北京卫视(高清)", "BEIJINGTV", "BTV卫视"]),
  ("广东卫视", ["广东", "广东台", "广东TV", "GUANGDONG", "GDTV", "广东卫视HD", "广东卫视高清", "广东卫视超清", "广东HD", "广东高清", "广东FHD", "广东4K", "广东卫视(高清)", "GUANGDONGTV", "广东省卫视"]),
  ("深圳卫视", ["深圳", "深圳台", "深圳TV", "SHENZHEN", "SZTV", "深圳卫视HD", "深圳卫视高清", "深圳卫视超清", "深圳HD", "深圳高清", "深圳FHD", "深圳4K", "深圳卫视(高清)", "SHENZHENTV"]),
  ("天津卫视", ["天津", "天津台", "天津TV", "TIANJIN", "TJTV", "天津卫视HD", "天津卫视高清", "天津卫视超清", "天津HD", "天津高清", "天津FHD", "天津卫视(高清)", "TIANJINTV"]),
  ("山东卫视", ["山东", "山东台", "山东TV", "SHANDONG", "SDTV", "山东卫视HD", "山东卫视高清", "山东卫视超清", "山东HD", "山东高清", "山东FHD", "山东卫视(高清)", "SHANDONGTV", "山东省卫视"]),
  ("湖北卫视", ["湖北", "湖北台", "湖北TV", "HUBEI", "HBTV", "湖北卫视HD", "湖北卫视高清", "湖北卫视超清", "湖北HD", "湖北高清", "湖北FHD", "湖北卫视(高清)", "HUBEITV", "湖北省卫视"]),
  ("辽宁卫视", ["辽宁", "辽宁台", "辽宁TV", "LIAONING", "LNTV", "辽宁卫视HD", "辽宁卫视高清", "辽宁卫视超清", "辽宁HD", "辽宁高清", "辽宁FHD", "辽宁卫视(高清)", "LIAONINGTV", "辽宁省卫视"]),
  ("黑龙江卫视", ["黑龙江", "黑龙江台", "黑龙江TV", "HEILONGJIANG", "HLJTV", "黑龙江卫视HD", "黑龙江卫视高清", "黑龙江卫视超清", "黑龙江HD", "黑龙江高清", "黑龙江FHD", "黑龙江卫视(高清)", "HEILONGJIANGTV", "黑龙江省卫视"]),
  ("安徽卫视", ["安徽", "安徽台", "安徽TV", "ANHUI", "AHTV", "安徽卫视HD", "安徽卫视高清", "安徽卫视超清", "安徽HD", "安徽高清", "安徽FHD", "安徽卫视(高清)", "ANHUITV", "安徽省卫视"]),
  ("河北卫视", ["河北", "河北台", "河北TV", "HEBEI", "HEBTV", "河北卫视HD", "河北卫视高清", "河北卫视超清", "河北HD", "河北高清", "河北FHD", "河北卫视(高清)", "HEBEITV", "河北省卫视"]),
  ("河南卫视", ["河南", "河南台", "河南TV", "HENAN", "HNTV", "河南卫视HD", "河南卫视高清", "河南卫视超清", "河南HD", "河南高清", "河南FHD", "河南卫视(高清)", "HENANTV", "河南省卫视"]),
  ("江西卫视", ["江西", "江西台", "江西TV", "JIANGXI", "JXTV", "江西卫视HD", "江西卫视高清", "江西卫视超清", "江西HD", "江西高清", "江西FHD", "江西卫视(高清)", "JIANGXITV", "江西省卫视"]),
  ("四川卫视", ["四川", "四川台", "四川TV", "SICHUAN", "SCTV", "四川卫视HD", "四川卫视高清", "四川卫视超清", "四川HD", "四川高清", "四川FHD", "四川卫视(高清)", "SICHUANTV", "四川省卫视"]),
  ("重庆卫视", ["重庆", "重庆台", "重庆TV", "CHONGQING", "CQTV", "重庆卫视HD", "重庆卫视高清", "重庆卫视超清", "重庆HD", "重庆高清", "重庆FHD", "重庆卫视(高清)", "CHONGQINGTV"]),
  ("贵州卫视", ["贵州", "贵州台", "贵州TV", "GUIZHOU", "GZTV", "贵州卫视HD", "贵州卫视高清", "贵州卫视超清", "贵州HD", "贵州高清", "贵州FHD", "贵州卫视(高清)", "GUIZHOUTV", "贵州省卫视"]),
  ("云南卫视", ["云南", "云南台", "云南TV", "YUNNAN", "YNTV", "云南卫视HD", "云南卫视高清", "云南卫视超清", "云南HD", "云南高清", "云南FHD", "云南卫视(高清)", "YUNNANTV", "云南省卫视"]),
  ("广西卫视", ["广西", "广西台", "广西TV", "GUANGXI", "GXTV", "广西卫视HD", "广西卫视高清", "广西卫视超清", "广西HD", "广西高清", "广西FHD", "广西卫视(高清)", "GUANGXITV", "广西省卫视"]),
  ("吉林卫视", ["吉林", "吉林台", "吉林TV", "JILIN", "JLTV", "吉林卫视HD", "吉林卫视高清", "吉林卫视超清", "吉林HD", "吉林高清", "吉林FHD", "吉林卫视(高清)", "JILINTV", "吉林省卫视"]),
  ("福建卫视", ["福建", "福建台", "福建TV", "FUJIAN", "FJTV", "SETV", "福建卫视HD", "福建卫视高清", "福建卫视超清", "福建HD", "福建高清", "福建FHD", "福建卫视(高清)", "FUJIANTV", "福建省卫视", "东南卫视"]),
  ("陕西卫视", ["陕西", "陕西台", "陕西TV", "SHANXI", "SXITV", "陕西卫视HD", "陕西卫视高清", "陕西卫视超清", "陕西HD", "陕西高清", "陕西FHD", "陕西卫视(高清)", "SHANXITV", "陕西省卫视"]),
  ("山西卫视", ["山西", "山西台", "SHANXI3", "SXSTV", "山西卫视HD", "山西卫视高清", "山西卫视超清", "山西卫视(高清)", "山西省卫视"]),
  ("内蒙古卫视", ["内蒙古", "内蒙古台", "内蒙古TV", "NEIMENGGU", "NMGTV", "内蒙古卫视HD", "内蒙古卫视高清", "内蒙古卫视超清", "内蒙古卫视(高清)", "内蒙古自治区卫视"]),
  ("青海卫视", ["青海", "青海台", "青海TV", "QINGHAI", "QHTV", "青海卫视HD", "青海卫视高清", "青海卫视超清", "青海卫视(高清)", "青海省卫视"]),
  ("宁夏卫视", ["宁夏", "宁夏台", "宁夏TV", "NINGXIA", "NXTV", "宁夏卫视HD", "宁夏卫视高清", "宁夏卫视超清", "宁夏卫视(高清)", "宁夏回族自治区卫视"]),
  ("新疆卫视", ["新疆", "新疆台", "新疆TV", "XINJIANG", "XJTV", "新疆卫视HD", "新疆卫视高清", "新疆卫视超清", "新疆卫视(高清)", "新疆维吾尔自治区卫视"]),
  ("西藏卫视", ["西藏", "西藏台", "西藏TV", "XIZANG", "TIBET", "XZTV", "西藏卫视HD", "西藏卫视高清", "西藏卫视超清", "西藏卫视(高清)", "西藏自治区卫视"]),
  ("甘肃卫视", ["甘肃", "甘肃台", "甘肃TV", "GANSU", "GSTV", "甘肃卫视HD", "甘肃卫视高清", "甘肃卫视超清", "甘肃卫视(高清)", "甘肃省卫视"]),
  ("海南卫视", ["海南", "海南台", "海南TV", "HAINAN", "HNTV2", "海南卫视HD", "海南卫视高清", "海南卫视超清", "海南卫视(高清)", "海南省卫视", "旅游卫视"]),
  ("凤凰卫视", ["凤凰", "凤凰台", "PHOENIX", "PHX", "凤凰卫视中文台", "凤凰中文", "PHOENIXTV", "凤凰HD", "凤凰高清"]),
  ("凤凰资讯", ["凤凰资讯台", "PHOENIXINFO", "凤凰资讯HD"]),
  ("凤凰香港", ["凤凰香港台", "PHOENIXHK", "凤凰香港HD"]),
  ("CHC家庭影院", ["CHC家庭", "CHC影院", "CHC", "CHC家庭HD"]),
  ("CHC高清电影", ["CHC电影", "CHC高清", "CHCTV"]),
  ("CHC动作电影", ["CHC动作", "CHC动作HD"])
]

/-- Property assignment on a JS object with string keys: a later assignment
    shadows earlier ones, so lookup takes the most recent binding. -/
def objSet (m : List (String × String)) (k v : String) : List (String × String) :=
  (k, v) :: m

/-- Property read on a JS object with string keys. -/
def objGet (m : List (String × String)) (k : String) : Option String :=
  (m.find? (fun p => p.1 == k)).map (fun p => p.2)

def upperStr (s : String) : String := ⟨s.data.map jsUpper⟩

/-- The key cleaning applied to aliases when building FLAT_CHANNELS:
    toUpperCase().replace(/\s+/g, ""). -/
def aliasKey (s : String) : String := ⟨(s.data.map jsUpper).filter (fun c => !jsWhitespace c)⟩

/-- logic.js FLAT_CHANNELS: for each entry the standard name (uppercased) maps
    to itself, and every alias (uppercased, whitespace removed) maps to the
    standard name. -/
def FLAT_CHANNELS : List (String × String) :=
  CHANNEL_ALIASES.foldl (fun acc p =>
    p.2.foldl (fun acc a => objSet acc (aliasKey a) p.1) (objSet acc (upperStr p.1) p.1)) []

/-- The separator class removed by normalizeChannelId: \s then [-_——]
    (hyphen, underscore and the em-dash U+2014). -/
def isSepCh (c : Char) : Bool :=
  jsWhitespace c || c == '-' || c == '_' || c == '—'

/-- The basic cleaning in normalizeChannelId:
    toUpperCase().replace(/\s+/g, "").replace(/[-_——]/g, ""). -/
def cleanChOf (l : List Char) : List Char :=
  (l.map jsUpper).filter (fun c => !isSepCh c)

def noiseTokens2 : List (List Char) :=
  ["HD".data, "SD".data, "高清".data, "超清".data, "4K".data, "8K".data,
   "综合".data, "频道".data, "字幕".data, "分级".data]

/-- replace(/(HD|SD|高清|超清|4K|8K|综合|频道|台|字幕|分级)$/g, ""):
    the end anchor makes at most one token match, and a two-character token
    suffix starts earlier than the one-character 台, so it wins the leftmost
    match; exactly one trailing token is removed. -/
def stripNoise (l : List Char) : List Char :=
  if noiseTokens2.any (fun t => t.isSuffixOf l) then l.take (l.length - 2)
  else if ("台".data).isSuffixOf l then l.take (l.length - 1)
  else l

/-- logic.js normalizeChannelId: clean, look up the flat alias map, retry
    after stripping one noise suffix, else return the cleaned base name. -/
def normalizeChannelId (rawCh : String) : String :=
  if rawCh = "" then ""
  else
    let cleanCh : List Char := cleanChOf rawCh.data
    match objGet FLAT_CHANNELS ⟨cleanCh⟩ with
    | some v => v
    | none =>
      let baseName := stripNoise cleanCh
      (objGet FLAT_CHANNELS ⟨baseName⟩).getD ⟨baseName⟩

/-! ## logic.js : memory cache and request coalescing (fetchAndFind)

The async function fetchAndFind is modelled as a step machine.  JavaScript
runs each segment between await points atomically, so the machine has one
step per segment:

  * enterFetchAndFind : lines 695-726 - the cooldown check, the freshness
    check, the coalescing check, and (when all miss) the creation and
    registration of a new fetchPromise (one network fetch starts).
  * ownerResume       : lines 728-751 - the caller that created the promise
    resumes after it settles (success stores the text, failure records the
    error and serves stale), then the finally block removes the
    registration.
  * coResume          : lines 710-717 - a caller that awaited an existing
    pending promise resumes; on success it returns the shared text, on
    failure it deletes the registration and falls through to lines 719-726,
    starting its own new fetch.

When a promise settles the owner resumes before the awaiting callers,
because its continuation was attached first.  The edge Cache API consulted
by getSourceStream is an optional tier outside the core (spec section 6);
it is modelled as absent, so every fetchPromise creation is a network
fetch.  The code returns smartFind(text, ...) where this model returns
DocResult.available text, and returns the empty result object where this
model returns DocResult.notAvailable. -/

structure EPGEnv where
  cacheTtl : Int
  errorCooldown : Int
  maxMemoryCache : Nat
deriving DecidableEq, Repr

/-- CACHE_TTL 3600 s, ERROR_COOLDOWN 120000 ms, MAX_MEMORY_CACHE 40*1024*1024. -/
def defaultEnv : EPGEnv := ⟨3600, 120000, 41943040⟩

structure CacheEntry where
  text : Option String
  expireTime : Int
  fetchTime : Int
  lastErrorTime : Int
  errorMsg : Option String
deriving DecidableEq, Repr

/-- JavaScript truthiness of the text field: undefined and "" are falsy. -/
def truthyText : Option String → Option String
  | some t => if t = "" then none else some t
  | none => none

/-- JS Map / plain object lookup. -/
def jmGet {α : Type} (m : List (String × α)) (k : String) : Option α :=
  (m.find? (fun p => p.1 == k)).map (fun p => p.2)

def jmHas {α : Type} (m : List (String × α)) (k : String) : Bool :=
  m.any (fun p => p.1 == k)

/-- JS Map.set: update in place keeps insertion order, a new key appends. -/
def jmSet {α : Type} (m : List (String × α)) (k : String) (v : α) :
    List (String × α) :=
  if jmHas m k then m.map (fun p => if p.1 == k then (k, v) else p)
  else m ++ [(k, v)]

/-- JS Map.delete. -/
def jmDelete {α : Type} (m : List (String × α)) (k : String) :
    List (String × α) :=
  m.filter (fun p => !(p.1 == k))

/-- MEMORY_CACHE_MAP.keys().next().value - the oldest inserted key. -/
def firstKey {α : Type} (m : List (String × α)) : Option String :=
  m.head?.map (fun p => p.1)

/-- available t stands for the code returning smartFind(t, ch, date, ...);
    notAvailable stands for returning the empty result object. -/
inductive DocResult where
  | available (text : String)
  | notAvailable
deriving DecidableEq, Repr

inductive Outcome where
  | ok (xmlText : String)
  | err (msg : String)
deriving DecidableEq, Repr

inductive CallerPhase where
  | done (r : DocResult)
  | ownerAwait (fid : Nat)
  | coAwait (fid : Nat)
deriving DecidableEq, Repr

structure SysState where
  memCache : List (String × CacheEntry)
  pending : List (String × Nat)
  fetchCount : Nat
  nextFid : Nat
deriving DecidableEq, Repr

/-- Lines 719-726: create the fetchPromise (the network fetch starts now)
    and register it in PENDING_REQUESTS. -/
def startFetch (s : SysState) (url : String) : SysState × CallerPhase :=
  ({ s with pending := jmSet s.pending url s.nextFid
          , fetchCount := s.fetchCount + 1
          , nextFid := s.nextFid + 1 }, .ownerAwait s.nextFid)

/-- Lines 710-717 guard: await an already pending promise if one exists,
    otherwise start a new fetch. -/
def enterPendingOnward (s : SysState) (url : String) : SysState × CallerPhase :=
  match jmGet s.pending url with
  | some fid => (s, .coAwait fid)
  | none => startFetch s url

/-- Lines 706-708: the freshness check, then fall through. -/
def enterFreshOnward (s : SysState) (url : String) (now : Int) :
    SysState × CallerPhase :=
  match jmGet s.memCache url with
  | some e =>
    match truthyText e.text with
    | some t =>
      if now < e.expireTime then (s, .done (.available t))
      else enterPendingOnward s url
    | none => enterPendingOnward s url
  | none => enterPendingOnward s url

/-- Lines 695-726: one atomic entry step of fetchAndFind, up to the first
    await that can suspend. -/
def enterFetchAndFind (env : EPGEnv) (s : SysState) (url : String) (now : Int) :
    SysState × CallerPhase :=
  match jmGet s.memCache url with
  | some e =>
    if e.lastErrorTime ≠ 0 ∧ now - e.lastErrorTime < env.errorCooldown then
      match truthyText e.text with
      | some t => (s, .done (.available t))
      | none => (s, .done .notAvailable)
    else enterFreshOnward s url now
  | none => enterFreshOnward s url now

/-- Lines 730-741: store a successful fetch, evicting the oldest entry when
    the map already holds 5 sources and the url is new; texts at or above
    the memory bound are not stored at all. -/
def storeSuccess (env : EPGEnv) (mem : List (String × CacheEntry))
    (url : String) (now : Int) (xmlText : String) : List (String × CacheEntry) :=
  if xmlText.length < env.maxMemoryCache then
    let mem1 :=
      if 5 ≤ mem.length ∧ jmHas mem url = false then
        match firstKey mem with
        | some k => jmDelete mem k
        | none => mem
      else mem
    jmSet mem1 url ⟨some xmlText, now + env.cacheTtl * 1000, now, 0, none⟩
  else mem

/-- Lines 728-751: the owner of the fetchPromise resumes after settlement.
    now is the timestamp the owner captured on entry. -/
def ownerResume (env : EPGEnv) (s : SysState) (url : String) (now : Int)
    (oc : Outcome) : SysState × DocResult :=
  match oc with
  | .ok xmlText =>
    ({ s with memCache := storeSuccess env s.memCache url now xmlText
            , pending := jmDelete s.pending url },
     .available xmlText)
  | .err msg =>
    let existing := jmGet s.memCache url
    let merged : CacheEntry :=
      match existing with
      | some e => { e with lastErrorTime := now, fetchTime := now
                         , errorMsg := some msg }
      | none => ⟨none, 0, now, now, some msg⟩
    let res : DocResult :=
      match truthyText (existing.bind (fun e => e.text)) with
      | some t => .available t
      | none => .notAvailable
    ({ s with memCache := jmSet s.memCache url merged
            , pending := jmDelete s.pending url }, res)

/-- Lines 710-717: a coalesced caller resumes after the awaited promise
    settles; on rejection it deletes the registration and falls through to
    lines 719-726, starting its own fetch. -/
def coResume (s : SysState) (url : String) (oc : Outcome) :
    SysState × CallerPhase :=
  match oc with
  | .ok xmlText => (s, .done (.available xmlText))
  | .err _ => startFetch { s with pending := jmDelete s.pending url } url

/-! ## utils.js : findChannelInfo (channel resolution)

The two regexes of findChannelInfo are hand compiled.  Both are
deterministic after noting that a bracket class such as -LSB-^>-RSB-* can
never consume its closing delimiter, so greedy runs admit no backtracking;
the only residual backtracking is the advance of a lazy any-char gap to the
next occurrence of the literal that follows it, which the fueled scanning
functions below implement position by position. -/

def dnOpenL : List Char := "<display-name".data

def dnCloseL : List Char := "</display-name>".data

def chIdOpenL : List Char := "<channel id=\"".data

def chOpenMarkL : List Char := "<channel".data

def chCloseL : List Char := "</channel>".data

def iconOpenL : List Char := "<icon src=\"".data

def iconEndL : List Char := "\" />".data

def idNeedleL : List Char := "id=\"".data

def quoteGtL : List Char := "\">".data

structure ChannelMatch where
  id : List Char
  name : List Char
  icon : List Char
deriving DecidableEq, Repr

/-- One position of the fast path regex
    <display-name-LSB-^>-RSB->\s*NAME\s*</display-name> (flag i), where NAME
    is the regex-escaped (hence literal) trimmed query. -/
def matchesExactAt (xml qt : List Char) (i : Nat) : Bool :=
  ciAt xml dnOpenL i &&
  (let a := i + 13
   let run := (xml.drop a).takeWhile (fun c => c != '>')
   decide (a + run.length < xml.length) &&
   (let b := a + run.length + 1
    let w1 := ((xml.drop b).takeWhile jsWhitespace).length
    ciAt xml qt (b + w1) &&
    (let d := b + w1 + qt.length
     let w2 := ((xml.drop d).takeWhile jsWhitespace).length
     ciAt xml dnCloseL (d + w2))))

/-- xml.match(exactRegex).index - the leftmost fast path match. -/
def exactIdx (xml qt : List Char) : Option Nat :=
  (List.range (xml.length + 1)).find? (fun i => matchesExactAt xml qt i)

/-- First capture of a regex of shape NEEDLE(-LSB-^"-RSB-+)" - scan the
    occurrences of the literal needle and take the first with a nonempty
    quote-free run terminated by a quote. -/
def capAfter (block needle : List Char) : Option (List Char) :=
  ((occs block needle).filterMap (fun i =>
    let rest := block.drop (i + needle.length)
    let run := rest.takeWhile (fun c => c != '"')
    if run.length ≠ 0 ∧ run.length < rest.length then some run else none)).head?

/-- Phase A of findChannelInfo (lines 26-54): on a fast path hit, locate the
    enclosing channel block via lastIndexOf / indexOf and extract id and
    icon; any miss (no match, no block boundary, no id) falls through. -/
def fastPathA (xml userChannelName : List Char) : Option ChannelMatch :=
  let qt := jsTrim userChannelName
  match exactIdx xml qt with
  | none => none
  | some nameIndex =>
    match lastUpTo xml chOpenMarkL nameIndex, firstFrom xml chCloseL nameIndex with
    | some cs, some ce =>
      let block := subL xml cs (ce + 10)
      match capAfter block idNeedleL with
      | some idv => some ⟨idv, qt, (capAfter block iconOpenL).getD []⟩
      | none => none
    | some _, none => none
    | none, _ => none

structure ChDecl where
  id : List Char
  name : List Char
  icon : Option (List Char)
  endPos : Nat
deriving DecidableEq, Repr

/-- The display-name part -LSB-\s\S-RSB-*?<display-name-LSB-^>-RSB->(-LSB-^<-RSB-+)</display-name>
    of the channel regex: try each occurrence of the opening literal in turn. -/
def findDN (xml : List Char) : Nat → Nat → Option (List Char × Nat)
  | 0, _ => none
  | fuel+1, p =>
    match firstFrom xml dnOpenL p with
    | none => none
    | some d =>
      let a := d + 13
      let run := (xml.drop a).takeWhile (fun c => c != '>')
      if a + run.length < xml.length then
        let contentStart := a + run.length + 1
        let content := (xml.drop contentStart).takeWhile (fun c => c != '<')
        if content.length ≠ 0 ∧
            dnCloseL.isPrefixOf (xml.drop (contentStart + content.length)) then
          some (content, contentStart + content.length + 15)
        else findDN xml fuel (d + 1)
      else findDN xml fuel (d + 1)

/-- The tail -LSB-\s\S-RSB-*?(?:<icon src="(-LSB-^"-RSB-+)" \/>)?-LSB-\s\S-RSB-*?</channel> of the
    channel regex.  With both gaps lazy and the group optional, the icon is
    captured exactly when the icon literal starts immediately at r and a
    channel closer follows it; otherwise the match ends at the first closer
    at or after r (and fails if there is none). -/
def tailIcon (xml : List Char) (r : Nat) : Option (Option (List Char) × Nat) :=
  let iconAttempt : Option (List Char × Nat) :=
    if iconOpenL.isPrefixOf (xml.drop r) then
      let run := (xml.drop (r + 11)).takeWhile (fun c => c != '"')
      if run.length ≠ 0 ∧ iconEndL.isPrefixOf (xml.drop (r + 11 + run.length)) then
        some (run, r + 11 + run.length + 4)
      else none
    else none
  match iconAttempt with
  | some (run, ie) =>
    match firstFrom xml chCloseL ie with
    | some c => some (some run, c + 10)
    | none =>
      match firstFrom xml chCloseL r with
      | some c => some (none, c + 10)
      | none => none
  | none =>
    match firstFrom xml chCloseL r with
    | some c => some (none, c + 10)
    | none => none

/-- Attempt the full channel regex anchored at occurrence i of
    <channel id=" (the id capture -LSB-^"-RSB-+ then "> is deterministic). -/
def tryChAt (xml : List Char) (i : Nat) : Option ChDecl :=
  let idStart := i + 13
  let idRun := (xml.drop idStart).takeWhile (fun c => c != '"')
  if idRun.length ≠ 0 ∧ quoteGtL.isPrefixOf (xml.drop (idStart + idRun.length)) then
    match findDN xml (xml.length + 1) (idStart + idRun.length + 2) with
    | some (name, r) =>
      match tailIcon xml r with
      | some (icon, e) => some ⟨idRun, name, icon, e⟩
      | none => none
    | none => none
  else none

/-- channelRegex.exec: the next match at or after start. -/
def nextChMatch (xml : List Char) : Nat → Nat → Option ChDecl
  | 0, _ => none
  | fuel+1, start =>
    match firstFrom xml chIdOpenL start with
    | none => none
    | some i =>
      match tryChAt xml i with
      | some d => some d
      | none => nextChMatch xml fuel (i + 1)

/-- All channel declarations matched by the exec loop, in document order. -/
def chDeclsAux (xml : List Char) : Nat → Nat → List ChDecl
  | 0, _ => []
  | fuel+1, start =>
    match nextChMatch xml (xml.length + 1) start with
    | none => []
    | some d => d :: chDeclsAux xml fuel d.endPos

def chDecls (xml : List Char) : List ChDecl := chDeclsAux xml (xml.length + 1) 0

/-- Phase B of findChannelInfo (lines 56-70): the while loop over successive
    channel matches, returning the first whose normalized display name
    equals the normalized input. -/
def slowLoop (xml normIn : List Char) : Nat → Nat → Option ChannelMatch
  | 0, _ => none
  | fuel+1, start =>
    match nextChMatch xml (xml.length + 1) start with
    | none => none
    | some d =>
      if normalizeName d.name = normIn then some ⟨d.id, d.name, d.icon.getD []⟩
      else slowLoop xml normIn fuel d.endPos

/-- utils.js findChannelInfo: exact fast path, then normalized fuzzy
    fallback, then null. -/
def findChannelInfo (xml userChannelName : List Char) : Option ChannelMatch :=
  match fastPathA xml userChannelName with
  | some m => some m
  | none => slowLoop xml (normalizeName userChannelName) (xml.length + 1) 0

/-! ## utils.js : extractPrograms -/

def progOpenL : List Char := "<programme".data

def progCloseL : List Char := "</programme>".data

def titleOpenL : List Char := "<title".data

def titleCloseL : List Char := "</title>".data

def descOpenL : List Char := "<desc".data

def descCloseL : List Char := "</desc>".data

def startNeedleL : List Char := "start=\"".data

def stopNeedleL : List Char := "stop=\"".data

/-- The pushed program object; endTime models the end key of the source
    object (end is reserved in Lean). -/
structure ProgramEntry where
  start : List Char
  endTime : List Char
  title : List Char
  desc : List Char
deriving DecidableEq, Repr

/-- First capture of OPEN-LSB-^>-RSB->(-LSB-\s\S-RSB-*?)CLOSE (used for title and
    desc): try each occurrence of the opening literal; the lazy capture runs
    to the first subsequent occurrence of the closing literal. -/
def lazyCapture (block openTok closeTok : List Char) : Nat → Nat → Option (List Char)
  | 0, _ => none
  | fuel+1, p =>
    match firstFrom block openTok p with
    | none => none
    | some o =>
      let a := o + openTok.length
      let run := (block.drop a).takeWhile (fun c => c != '>')
      if a + run.length < block.length then
        let cs := a + run.length + 1
        match firstFrom block closeTok cs with
        | some c => some (subL block cs c)
        | none => lazyCapture block openTok closeTok fuel (o + 1)
      else lazyCapture block openTok closeTok fuel (o + 1)

/-- Lines 99-105: build one pushed entry from the programme block and its
    start capture. -/
def mkProgEntry (progStr st : List Char) : ProgramEntry :=
  { start := formatTime st
  , endTime :=
      match capAfter progStr stopNeedleL with
      | some sp => formatTime sp
      | none => []
  , title :=
      match lazyCapture progStr titleOpenL titleCloseL (progStr.length + 1) 0 with
      | some t => cleanContent t
      | none => "节目".data
  , desc :=
      match lazyCapture progStr descOpenL descCloseL (progStr.length + 1) 0 with
      | some d => cleanContent d
      | none => [] }

/-- Lines 86-107: the body of the extraction loop at one occurrence of the
    channel attribute: locate the enclosing programme block, read the start
    capture and keep the entry when its date prefix matches. -/
def progAt (xml : List Char) (pos : Nat) (targetDateCompact : List Char) :
    Option ProgramEntry :=
  match lastUpTo xml progOpenL pos, firstFrom xml progCloseL pos with
  | some s, some e =>
    let progStr := subL xml s (e + 12)
    match capAfter progStr startNeedleL with
    | some st =>
      if targetDateCompact.isPrefixOf st then some (mkProgEntry progStr st)
      else none
    | none => none
  | some _, none => none
  | none, _ => none

/-- channel="ID" -/
def channelAttr (id : List Char) : List Char :=
  "channel=\"".data ++ id ++ "\"".data

/-- The while loop of extractPrograms, driven by indexOf like the source
    (none models the indexOf result -1). -/
def extractLoop (xml attr compact : List Char) : Nat → Option Nat → List ProgramEntry
  | _, none => []
  | 0, some _ => []
  | fuel+1, some pos =>
    (match progAt xml pos compact with
     | some entry => [entry]
     | none => []) ++ extractLoop xml attr compact fuel (firstFrom xml attr (pos + 1))

/-- utils.js extractPrograms, restricted to the programs list it builds (the
    response envelope it also returns belongs to the routing layer).  The
    source receives channelInfo and uses channelInfo.id; the model takes the
    id directly. -/
def extractPrograms (xml channelId targetDateStr : List Char) : List ProgramEntry :=
  let targetDateCompact := targetDateStr.filter (fun c => c != '-')
  let attr := channelAttr channelId
  extractLoop xml attr targetDateCompact (xml.length + 2) (firstFrom xml attr 0)

/-- utils.js smartFind: resolve the channel, then extract its programs. -/
def smartFind (xml userChannelName targetDateStr : List Char) :
    Option ChannelMatch × List ProgramEntry :=
  match findChannelInfo xml userChannelName with
  | none => (none, [])
  | some info => (some info, extractPrograms xml info.id targetDateStr)

/-! ## Statement vocabulary for the cache claims -/

/-- The code guard of the fresh branch: a truthy text that has not expired. -/
def FreshTextAt (s : SysState) (url : String) (now : Int) (t : String) : Prop :=
  ∃ e, jmGet s.memCache url = some e ∧ truthyText e.text = some t ∧
    now < e.expireTime

/-- The code guard of the cooldown branch. -/
def CoolingAt (env : EPGEnv) (s : SysState) (url : String) (now : Int) : Prop :=
  ∃ e, jmGet s.memCache url = some e ∧ e.lastErrorTime ≠ 0 ∧
    now - e.lastErrorTime < env.errorCooldown

/-! ## Lemmas about the JS map operations -/

theorem jmGet_map_replace {α : Type} (m : List (String × α)) (k : String) (v : α) :
    jmGet (m.map (fun p => if p.1 == k then (k, v) else p)) k
      = if jmHas m k then some v else none := by
  induction m with
  | nil => simp [jmGet, jmHas]
  | cons p t ih =>
    by_cases hp : p.1 = k
    · have hb : (p.1 == k) = true := by simp [hp]
      simp [jmGet, jmHas, hb, List.find?]
    · have hb : (p.1 == k) = false := by simp [hp]
      simp only [List.map_cons, hb, Bool.false_eq_true, if_false, jmGet,
        List.find?, jmHas, List.any_cons] at *
      simpa [jmGet, jmHas, hb] using ih

theorem jmGet_append_single {α : Type} (m : List (String × α)) (k : String) (v : α)
    (h : jmHas m k = false) : jmGet (m ++ [(k, v)]) k = some v := by
  induction m with
  | nil => simp [jmGet]
  | cons p t ih =>
    have hb : (p.1 == k) = false := by
      by_contra hc
      simp only [Bool.not_eq_false] at hc
      simp [jmHas, hc] at h
    have ht : jmHas t k = false := by
      simp [jmHas, hb] at h ⊢
      exact h
    simp only [List.cons_append, jmGet, List.find?, hb]
    simpa [jmGet] using ih ht

theorem jmGet_set_self {α : Type} (m : List (String × α)) (k : String) (v : α) :
    jmGet (jmSet m k v) k = some v := by
  unfold jmSet
  cases h : jmHas m k with
  | true =>
    have hr := jmGet_map_replace m k v
    rw [h] at hr
    simpa using hr
  | false => simpa using jmGet_append_single m k v h

theorem jmGet_map_replace_other {α : Type} (m : List (String × α))
    (k k' : String) (v : α) (hne : k' ≠ k) :
    jmGet (m.map (fun p => if p.1 == k then (k, v) else p)) k' = jmGet m k' := by
  induction m with
  | nil => simp [jmGet]
  | cons p t ih =>
    by_cases hp : p.1 = k
    · have hb : (p.1 == k) = true := by simp [hp]
      have hb2 : (k == k') = false := beq_eq_false_iff_ne.mpr (fun hc => hne hc.symm)
      have hb3 : (p.1 == k') = false := by rw [hp]; exact hb2
      simp only [List.map_cons, hb, if_true, jmGet, List.find?, hb2, hb3]
      simpa [jmGet] using ih
    · have hb : (p.1 == k) = false := by simp [hp]
      by_cases hq : p.1 = k'
      · have hb2 : (p.1 == k') = true := by simp [hq]
        simp [jmGet, List.find?, hb, hb2]
      · have hb2 : (p.1 == k') = false := by simp [hq]
        simp only [List.map_cons, hb, Bool.false_eq_true, if_false, jmGet,
          List.find?, hb2]
        simpa [jmGet] using ih

theorem jmGet_append_single_other {α : Type} (m : List (String × α))
    (k k' : String) (v : α) (hne : k' ≠ k) :
    jmGet (m ++ [(k, v)]) k' = jmGet m k' := by
  induction m with
  | nil =>
    have hb2 : (k == k') = false := beq_eq_false_iff_ne.mpr (fun hc => hne hc.symm)
    simp [jmGet, List.find?, hb2]
  | cons p t ih =>
    by_cases hq : p.1 = k'
    · have hb2 : (p.1 == k') = true := by simp [hq]
      simp [jmGet, List.find?, hb2]
    · have hb2 : (p.1 == k') = false := by simp [hq]
      simp only [List.cons_append, jmGet, List.find?, hb2]
      simpa [jmGet] using ih

theorem jmGet_set_other {α : Type} (m : List (String × α)) (k k' : String)
    (v : α) (hne : k' ≠ k) : jmGet (jmSet m k v) k' = jmGet m k' := by
  unfold jmSet
  cases h : jmHas m k with
  | true =>
    rw [if_pos rfl]
    exact jmGet_map_replace_other m k k' v hne
  | false =>
    rw [if_neg (by simp)]
    exact jmGet_append_single_other m k k' v hne

theorem jmGet_delete_self {α : Type} (m : List (String × α)) (k : String) :
    jmGet (jmDelete m k) k = none := by
  induction m with
  | nil => simp [jmDelete, jmGet]
  | cons p t ih =>
    by_cases hp : p.1 = k
    · have hb : (p.1 == k) = true := by simp [hp]
      simpa [jmDelete, jmGet, hb] using ih
    · have hb : (p.1 == k) = false := by simp [hp]
      simpa [jmDelete, jmGet, List.find?, hb] using ih

theorem jmGet_isSome_set {α : Type} (m : List (String × α)) (k k' : String)
    (v : α) (h : (jmGet m k').isSome) : (jmGet (jmSet m k v) k').isSome := by
  by_cases hq : k' = k
  · subst hq; simp [jmGet_set_self]
  · rw [jmGet_set_other m k k' v hq]; exact h

theorem jmSet_length {α : Type} (m : List (String × α)) (k : String) (v : α) :
    (jmSet m k v).length = if jmHas m k then m.length else m.length + 1 := by
  unfold jmSet
  cases h : jmHas m k with
  | true => simp
  | false => simp

theorem jmDelete_length_lt {α : Type} (m : List (String × α)) (k : String)
    (h : firstKey m = some k) : (jmDelete m k).length + 1 ≤ m.length := by
  cases m with
  | nil => simp [firstKey] at h
  | cons p t =>
    have hk : p.1 = k := by simpa [firstKey] using h
    have hb : (p.1 == k) = true := by simp [hk]
    have : jmDelete (p :: t) k = jmDelete t k := by simp [jmDelete, hb]
    rw [this]
    have := List.length_filter_le (fun q => !(q.1 == k)) t
    simpa [jmDelete] using Nat.succ_le_succ this

theorem jmHas_of_delete {α : Type} (m : List (String × α)) (k u : String)
    (h : jmHas (jmDelete m k) u = true) : jmHas m u = true := by
  simp only [jmHas, jmDelete, List.any_eq_true] at h ⊢
  obtain ⟨p, hp, hu⟩ := h
  exact ⟨p, List.mem_of_mem_filter hp, hu⟩

/-! ## Claim C3 : failed fetch handling -/

/-- C3 (amended): when the fetch for a source URL fails, the cache entry
    afterwards records the failure (lastErrorTime = now, errorMsg = the
    error) while the previously cached text field is kept unchanged; the
    caller receives the previously cached text when a truthy (non-empty)
    one exists and the empty NotAvailable result otherwise, and the pending
    registration is removed.  The error is converted into a return value,
    never rethrown past fetchAndFind (the model is a total function).
    The amendment relative to the claim text: a previously cached EMPTY
    text exists but is falsy in JavaScript, so the caller then receives
    NotAvailable rather than that text (see the counterexample). -/
theorem c3_fetchFailure (env : EPGEnv) (s : SysState) (url : String)
    (now : Int) (msg : String) :
    (∃ e, jmGet (ownerResume env s url now (.err msg)).1.memCache url = some e ∧
       e.lastErrorTime = now ∧ e.errorMsg = some msg ∧
       e.text = (jmGet s.memCache url).bind (fun x => x.text)) ∧
    (ownerResume env s url now (.err msg)).2 =
      (match truthyText ((jmGet s.memCache url).bind (fun x => x.text)) with
       | some t => DocResult.available t
       | none => DocResult.notAvailable) ∧
    jmGet (ownerResume env s url now (.err msg)).1.pending url = none := by
  cases hg : jmGet s.memCache url with
  | none =>
    refine ⟨⟨⟨none, 0, now, now, some msg⟩, ?_, rfl, rfl, ?_⟩, ?_, ?_⟩
    · simp only [ownerResume, hg]
      exact jmGet_set_self s.memCache url _
    · simp [hg]
    · simp only [ownerResume, hg]
    · simp only [ownerResume, hg]
      exact jmGet_delete_self s.pending url
  | some e =>
    refine ⟨⟨{ e with lastErrorTime := now, fetchTime := now, errorMsg := some msg },
              ?_, rfl, rfl, ?_⟩, ?_, ?_⟩
    · simp only [ownerResume, hg]
      exact jmGet_set_self s.memCache url _
    · simp [hg]
    · simp only [ownerResume, hg]
    · simp only [ownerResume, hg]
      exact jmGet_delete_self s.pending url

/-- C3 counterexample to the claim as stated: a previously cached text
    exists (the empty string), the fetch fails, and the caller receives
    NotAvailable instead of that text, because the code tests the text
    with JavaScript truthiness. -/
theorem c3_cex :
    (jmGet ([("u", (⟨some "", 100, 0, 0, none⟩ : CacheEntry))]) "u").bind
        (fun e => e.text) = some "" ∧
    (ownerResume defaultEnv ⟨[("u", ⟨some "", 100, 0, 0, none⟩)], [], 0, 0⟩
        "u" 50 (.err "boom")).2 = .notAvailable :=
  ⟨by decide, by decide⟩

/-! ## Claim C4 : successful fetch handling -/

/-- C4 (amended): when the fetch succeeds AND the fetched text is shorter
    than the configured memory cache bound, the entry afterwards holds the
    text with fetchTime = now, expireTime = now + ttl*1000, and cleared
    error fields, and the pending registration is removed.  The size
    precondition is the amendment: the claim as stated omits it (see the
    counterexample, where a text of the default bound length is not stored
    at all). -/
theorem c4_fetchSuccess (env : EPGEnv) (s : SysState) (url : String)
    (now : Int) (xmlText : String) (h : xmlText.length < env.maxMemoryCache) :
    jmGet (ownerResume env s url now (.ok xmlText)).1.memCache url =
      some ⟨some xmlText, now + env.cacheTtl * 1000, now, 0, none⟩ ∧
    (ownerResume env s url now (.ok xmlText)).2 = .available xmlText ∧
    jmGet (ownerResume env s url now (.ok xmlText)).1.pending url = none := by
  refine ⟨?_, rfl, ?_⟩
  · simp only [ownerResume, storeSuccess, if_pos h]
    exact jmGet_set_self _ url _
  · simp only [ownerResume]
    exact jmGet_delete_self s.pending url

/-- C4 witness: concrete successful fetch stored with the default config. -/
theorem c4_fetchSuccess_witness :
    ("doc".length < defaultEnv.maxMemoryCache) ∧
    jmGet (ownerResume defaultEnv ⟨[], [], 0, 0⟩ "u" 7 (.ok "doc")).1.memCache "u" =
      some ⟨some "doc", 7 + defaultEnv.cacheTtl * 1000, 7, 0, none⟩ :=
  ⟨by decide, (c4_fetchSuccess defaultEnv ⟨[], [], 0, 0⟩ "u" 7 "doc" (by decide)).1⟩

/-- C4 counterexample to the claim as stated: a successful fetch of a
    40*1024*1024 character document (the default MAX_MEMORY_CACHE_CHARS) is
    not stored, so afterwards the cache holds no entry for the URL. -/
theorem c4_cex :
    jmGet (ownerResume defaultEnv ⟨[], [], 0, 0⟩ "u" 0
        (.ok ⟨List.replicate 41943040 'a'⟩)).1.memCache "u" = none := by
  have hl : (String.mk (List.replicate 41943040 'a')).length = 41943040 := by
    show (List.replicate 41943040 'a').length = 41943040
    exact List.length_replicate 41943040 'a'
  simp only [ownerResume, storeSuccess, hl]
  rw [if_neg (by norm_num [defaultEnv])]
  simp [jmGet]

/-! ## Claim C2 : fresh and cooling entries cause no fetch -/

/-- C2 (amended): if the cached entry has a truthy (non-empty) text and
    now < expireTime, fetchAndFind returns that text with the state (hence
    the fetch count) unchanged; if the entry is cooling (lastErrorTime set
    and now - lastErrorTime < cooldown) it likewise performs no fetch and
    returns the truthy cached text if any, else NotAvailable; and whenever
    the entry step starts a network fetch the entry was neither fresh nor
    cooling.  Amendment relative to the claim text: text non-null must be
    strengthened to text truthy, because a cached empty string is falsy in
    JavaScript (see the counterexample). -/
theorem c2_noFetchWhenFreshOrCooling (env : EPGEnv) (s : SysState)
    (url : String) (now : Int) :
    (∀ e t, jmGet s.memCache url = some e → truthyText e.text = some t →
       now < e.expireTime →
       enterFetchAndFind env s url now = (s, .done (.available t))) ∧
    (∀ e, jmGet s.memCache url = some e → e.lastErrorTime ≠ 0 →
       now - e.lastErrorTime < env.errorCooldown →
       enterFetchAndFind env s url now =
         (s, .done (match truthyText e.text with
                    | some t => DocResult.available t
                    | none => DocResult.notAvailable))) ∧
    ((enterFetchAndFind env s url now).1.fetchCount ≠ s.fetchCount →
       (¬ ∃ t, FreshTextAt s url now t) ∧ ¬ CoolingAt env s url now) := by
  have hfresh : ∀ e t, jmGet s.memCache url = some e →
      truthyText e.text = some t → now < e.expireTime →
      enterFetchAndFind env s url now = (s, .done (.available t)) := by
    intro e t hg ht hx
    simp only [enterFetchAndFind, hg]
    by_cases hc : e.lastErrorTime ≠ 0 ∧ now - e.lastErrorTime < env.errorCooldown
    · rw [if_pos hc, ht]
    · rw [if_neg hc]
      simp only [enterFreshOnward, hg, ht]
      rw [if_pos hx]
  have hcool : ∀ e, jmGet s.memCache url = some e → e.lastErrorTime ≠ 0 →
      now - e.lastErrorTime < env.errorCooldown →
      enterFetchAndFind env s url now =
        (s, .done (match truthyText e.text with
                   | some t => DocResult.available t
                   | none => DocResult.notAvailable)) := by
    intro e hg h1 h2
    simp only [enterFetchAndFind, hg]
    rw [if_pos ⟨h1, h2⟩]
    cases truthyText e.text <;> rfl
  refine ⟨hfresh, hcool, ?_⟩
  intro hne
  constructor
  · rintro ⟨t, e, hg, ht, hx⟩
    rw [hfresh e t hg ht hx] at hne
    exact hne rfl
  · rintro ⟨e, hg, h1, h2⟩
    rw [hcool e hg h1 h2] at hne
    exact hne rfl

/-- C2 witness: a concrete fresh entry is served from memory unchanged. -/
theorem c2_w :
    enterFetchAndFind defaultEnv
        ⟨[("u", ⟨some "x", 100, 0, 0, none⟩)], [], 3, 0⟩ "u" 50 =
      (⟨[("u", ⟨some "x", 100, 0, 0, none⟩)], [], 3, 0⟩,
       .done (.available "x")) :=
  (c2_noFetchWhenFreshOrCooling defaultEnv
      ⟨[("u", ⟨some "x", 100, 0, 0, none⟩)], [], 3, 0⟩ "u" 50).1
    ⟨some "x", 100, 0, 0, none⟩ "x" (by decide) (by decide) (by decide)

/-- C2 counterexample to the claim as stated: an entry whose text is the
    non-null empty string with now < expireTime and no error is fresh in
    the sense of the claim, yet the entry step starts a network fetch
    (fetch count rises from 0 to 1). -/
theorem c2_cex :
    ((⟨some "", 100, 0, 0, none⟩ : CacheEntry).text ≠ none ∧
     (50 : Int) < (⟨some "", 100, 0, 0, none⟩ : CacheEntry).expireTime ∧
     (⟨some "", 100, 0, 0, none⟩ : CacheEntry).lastErrorTime = 0) ∧
    (enterFetchAndFind defaultEnv
        ⟨[("u", ⟨some "", 100, 0, 0, none⟩)], [], 0, 0⟩ "u" 50).1.fetchCount = 1 :=
  ⟨by decide, by decide⟩

/-! ## Claim C5 : cache bound, eviction order, no TTL eviction -/

theorem jmHas_delete_false {α : Type} (m : List (String × α)) (k u : String)
    (h : jmHas m u = false) : jmHas (jmDelete m k) u = false := by
  cases hd : jmHas (jmDelete m k) u with
  | false => rfl
  | true => rw [jmHas_of_delete m k u hd] at h; cases h

theorem storeSuccess_length_le (env : EPGEnv) (m : List (String × CacheEntry))
    (url : String) (now : Int) (x : String) (h : m.length ≤ 5) :
    (storeSuccess env m url now x).length ≤ 5 := by
  unfold storeSuccess
  by_cases hsz : x.length < env.maxMemoryCache
  · rw [if_pos hsz]
    by_cases hc : 5 ≤ m.length ∧ jmHas m url = false
    · rw [if_pos hc]
      obtain ⟨p, t, hm⟩ : ∃ p t, m = p :: t := by
        cases m with
        | nil => simp at hc
        | cons p t => exact ⟨p, t, rfl⟩
      have hfk : firstKey m = some p.1 := by rw [hm]; rfl
      simp only [hfk]
      have hdel := jmDelete_length_lt m p.1 hfk
      have hnh : jmHas (jmDelete m p.1) url = false :=
        jmHas_delete_false m p.1 url hc.2
      rw [jmSet_length, if_neg (by simp [hnh])]
      omega
    · rw [if_neg hc]
      rw [jmSet_length]
      by_cases hh : jmHas m url
      · rw [if_pos hh]; exact h
      · rw [if_neg hh]
        have : ¬ 5 ≤ m.length := by
          intro h5
          exact hc ⟨h5, by simpa using hh⟩
        omega
  · rw [if_neg hsz]; exact h

theorem storeSuccess_evict (env : EPGEnv) (m : List (String × CacheEntry))
    (url : String) (now : Int) (x : String) (h5 : 5 ≤ m.length)
    (hhas : jmHas m url = false) (hsz : x.length < env.maxMemoryCache) :
    ∃ k, firstKey m = some k ∧
      storeSuccess env m url now x =
        jmDelete m k ++ [(url, ⟨some x, now + env.cacheTtl * 1000, now, 0, none⟩)] := by
  obtain ⟨p, t, hm⟩ : ∃ p t, m = p :: t := by
    cases m with
    | nil => simp at h5
    | cons p t => exact ⟨p, t, rfl⟩
  have hfk : firstKey m = some p.1 := by rw [hm]; rfl
  refine ⟨p.1, hfk, ?_⟩
  unfold storeSuccess
  rw [if_pos hsz, if_pos ⟨h5, hhas⟩]
  simp only [hfk]
  have hnh : jmHas (jmDelete m p.1) url = false :=
    jmHas_delete_false m p.1 url hhas
  unfold jmSet
  rw [if_neg (by simp [hnh])]

/-- C5 (amended): on the success path the bound holds - storing a fetched
    text keeps the cache at no more than 5 entries, and when the cache
    holds at least 5 URLs and the stored URL is new, exactly the oldest
    inserted entry (the first key) is deleted and the new entry appended;
    the entry step never removes entries (in particular a TTL-expired text
    stays available as a stale fallback); and the failure path never
    removes entries either.  Amendment relative to the claim text: the
    bound is NOT an invariant of the whole system, because the failure
    path inserts an error record for a new URL without evicting (see the
    counterexample, where the cache grows to 6 distinct URLs). -/
theorem c5_boundEvictionNoTtl (env : EPGEnv) :
    (∀ s url now xmlText, s.memCache.length ≤ 5 →
       ((ownerResume env s url now (.ok xmlText)).1.memCache).length ≤ 5) ∧
    (∀ s url now xmlText, 5 ≤ s.memCache.length → jmHas s.memCache url = false →
       xmlText.length < env.maxMemoryCache →
       ∃ k, firstKey s.memCache = some k ∧
         (ownerResume env s url now (.ok xmlText)).1.memCache =
           jmDelete s.memCache k ++
             [(url, ⟨some xmlText, now + env.cacheTtl * 1000, now, 0, none⟩)]) ∧
    (∀ s url now, (enterFetchAndFind env s url now).1.memCache = s.memCache) ∧
    (∀ s url now msg k, (jmGet s.memCache k).isSome →
       (jmGet (ownerResume env s url now (.err msg)).1.memCache k).isSome) := by
  refine ⟨?_, ?_, ?_, ?_⟩
  · intro s url now x h
    simp only [ownerResume]
    exact storeSuccess_length_le env s.memCache url now x h
  · intro s url now x h5 hhas hsz
    simp only [ownerResume]
    exact storeSuccess_evict env s.memCache url now x h5 hhas hsz
  · intro s url now
    unfold enterFetchAndFind enterFreshOnward enterPendingOnward startFetch
    repeat' split <;> try rfl
  · intro s url now msg k h
    simp only [ownerResume]
    exact jmGet_isSome_set s.memCache url k _ h

/-- C5 witness: a concrete store keeps the cache within the bound. -/
theorem c5_w :
    ((ownerResume defaultEnv
        ⟨[("u1", ⟨some "a", 9, 0, 0, none⟩), ("u2", ⟨some "b", 9, 0, 0, none⟩)],
         [], 0, 0⟩ "u3" 4 (.ok "doc")).1.memCache).length ≤ 5 :=
  (c5_boundEvictionNoTtl defaultEnv).1
    ⟨[("u1", ⟨some "a", 9, 0, 0, none⟩), ("u2", ⟨some "b", 9, 0, 0, none⟩)],
     [], 0, 0⟩ "u3" 4 "doc" (by decide)

/-- C5 counterexample to the claim as stated: with 5 distinct cached URLs,
    a failed fetch for a sixth URL inserts a sixth entry, exceeding the
    configured bound of 5. -/
theorem c5_cex :
    ((⟨[("u1", ⟨some "a", 9, 0, 0, none⟩), ("u2", ⟨some "a", 9, 0, 0, none⟩),
        ("u3", ⟨some "a", 9, 0, 0, none⟩), ("u4", ⟨some "a", 9, 0, 0, none⟩),
        ("u5", ⟨some "a", 9, 0, 0, none⟩)], [], 0, 0⟩ : SysState).memCache.length = 5) ∧
    ((ownerResume defaultEnv
        ⟨[("u1", ⟨some "a", 9, 0, 0, none⟩), ("u2", ⟨some "a", 9, 0, 0, none⟩),
          ("u3", ⟨some "a", 9, 0, 0, none⟩), ("u4", ⟨some "a", 9, 0, 0, none⟩),
          ("u5", ⟨some "a", 9, 0, 0, none⟩)], [], 0, 0⟩ "u6" 9
        (.err "boom")).1.memCache).length = 6 :=
  ⟨by decide, by decide⟩

/-! ## Claim C1 : request coalescing -/

/-- C1 (amended): from a state where the URL has no pending fetch and the
    first caller finds the entry neither fresh nor cooling, the first
    caller starts exactly one network fetch and registers it; a second
    caller arriving at a not-earlier time awaits that same pending future
    without starting a fetch or changing the state.  If the fetch
    SUCCEEDS, both callers observe its text, the registration is removed,
    and the total fetch count is exactly one more than before.  If the
    fetch FAILS, the registration is removed and the first caller is
    served per the stale-if-error rule, but the awaiting caller then
    starts its own second network fetch (total two fetches).  Amendment
    relative to the claim text: the exactly-one-fetch and
    all-callers-observe-the-one-attempt guarantees hold only for
    successful attempts; a failed attempt makes the awaiting caller retry
    with a new fetch (see the counterexample). -/
theorem c1_coalescing (env : EPGEnv) (s : SysState) (url : String)
    (nowA nowB : Int)
    (hpend : jmGet s.pending url = none)
    (hfresh : ¬ ∃ t, FreshTextAt s url nowA t)
    (hcool : ¬ CoolingAt env s url nowA)
    (hmono : nowA ≤ nowB) :
    enterFetchAndFind env s url nowA = startFetch s url ∧
    enterFetchAndFind env (startFetch s url).1 url nowB =
      ((startFetch s url).1, .coAwait s.nextFid) ∧
    (∀ text,
      (ownerResume env (startFetch s url).1 url nowA (.ok text)).2 =
        .available text ∧
      jmGet (ownerResume env (startFetch s url).1 url nowA (.ok text)).1.pending
        url = none ∧
      (ownerResume env (startFetch s url).1 url nowA (.ok text)).1.fetchCount =
        s.fetchCount + 1 ∧
      (coResume (ownerResume env (startFetch s url).1 url nowA (.ok text)).1
        url (.ok text)).2 = .done (.available text)) ∧
    (∀ msg,
      jmGet (ownerResume env (startFetch s url).1 url nowA (.err msg)).1.pending
        url = none ∧
      (coResume (ownerResume env (startFetch s url).1 url nowA (.err msg)).1
        url (.err msg)).2 = .ownerAwait (s.nextFid + 1) ∧
      (coResume (ownerResume env (startFetch s url).1 url nowA (.err msg)).1
        url (.err msg)).1.fetchCount = s.fetchCount + 2) := by
  have hA : enterFetchAndFind env s url nowA = startFetch s url := by
    have hrun : enterPendingOnward s url = startFetch s url := by
      simp only [enterPendingOnward, hpend]
    cases hg : jmGet s.memCache url with
    | none =>
      simp only [enterFetchAndFind, hg, enterFreshOnward, hrun]
    | some e =>
      simp only [enterFetchAndFind, hg]
      rw [if_neg (fun hc => hcool ⟨e, hg, hc.1, hc.2⟩)]
      simp only [enterFreshOnward, hg]
      cases ht : truthyText e.text with
      | none => exact hrun
      | some t =>
        simp only [ht]
        rw [if_neg (fun hx => hfresh ⟨t, e, hg, ht, hx⟩)]
        exact hrun
  have hmem : (startFetch s url).1.memCache = s.memCache := rfl
  have hB : enterFetchAndFind env (startFetch s url).1 url nowB =
      ((startFetch s url).1, .coAwait s.nextFid) := by
    have hrun : enterPendingOnward (startFetch s url).1 url =
        ((startFetch s url).1, .coAwait s.nextFid) := by
      simp only [enterPendingOnward, startFetch]
      rw [jmGet_set_self]
    cases hg : jmGet s.memCache url with
    | none =>
      simp only [enterFetchAndFind, hmem, hg, enterFreshOnward, hrun]
    | some e =>
      simp only [enterFetchAndFind, hmem, hg]
      rw [if_neg (fun hc => hcool ⟨e, hg, hc.1, by omega⟩)]
      simp only [enterFreshOnward, hmem, hg]
      cases ht : truthyText e.text with
      | none => exact hrun
      | some t =>
        simp only [ht]
        rw [if_neg (fun hx => hfresh ⟨t, e, hg, ht, by omega⟩)]
        exact hrun
  refine ⟨hA, hB, ?_, ?_⟩
  · intro text
    refine ⟨rfl, ?_, rfl, rfl⟩
    simp only [ownerResume]
    exact jmGet_delete_self _ url
  · intro msg
    refine ⟨?_, rfl, rfl⟩
    simp only [ownerResume]
    exact jmGet_delete_self _ url

/-- C1 witness: a concrete second caller coalesces onto the pending fetch. -/
theorem c1_w :
    enterFetchAndFind defaultEnv
        (startFetch (⟨[], [], 0, 0⟩ : SysState) "u").1 "u" 1 =
      ((startFetch (⟨[], [], 0, 0⟩ : SysState) "u").1, .coAwait 0) :=
  (c1_coalescing defaultEnv ⟨[], [], 0, 0⟩ "u" 0 1 (by decide)
    (by rintro ⟨t, e, hg, _, _⟩; simp [jmGet] at hg)
    (by rintro ⟨e, hg, _, _⟩; simp [jmGet] at hg)
    (by norm_num)).2.1

/-- C1 counterexample to the claim as stated: two concurrent callers, no
    cached text; the second caller awaits the pending future, the fetch
    fails, and the awaiting caller then starts a second network fetch, so
    two network fetches are performed instead of exactly one. -/
theorem c1_cex :
    (enterFetchAndFind defaultEnv
        ((enterFetchAndFind defaultEnv ⟨[], [], 0, 0⟩ "u" 0).1) "u" 1).2 =
      .coAwait 0 ∧
    (coResume
        (ownerResume defaultEnv
          ((enterFetchAndFind defaultEnv
            ((enterFetchAndFind defaultEnv ⟨[], [], 0, 0⟩ "u" 0).1) "u" 1).1)
          "u" 0 (.err "boom")).1
        "u" (.err "boom")).1.fetchCount = 2 :=
  ⟨by decide, by decide⟩

/-! ## Lemmas about normalizeChannelId -/

set_option maxHeartbeats 1600000 in
theorem jsUpper_idem (c : Char) : jsUpper (jsUpper c) = jsUpper c := by
  unfold jsUpper
  split <;>
    first
      | rfl
      | (rename_i heq
         exfalso
         split at heq <;> first | exact absurd heq (by decide) | contradiction)

theorem cleanChOf_append (a b : List Char) :
    cleanChOf (a ++ b) = cleanChOf a ++ cleanChOf b := by
  simp [cleanChOf]

theorem cleanChOf_cons_sep (c : Char) (l : List Char)
    (h : isSepCh (jsUpper c) = true) : cleanChOf (c :: l) = cleanChOf l := by
  simp [cleanChOf, h]

theorem cleanChOf_map_jsUpper (l : List Char) :
    cleanChOf (l.map jsUpper) = cleanChOf l := by
  unfold cleanChOf
  rw [List.map_map]
  have : l.map (jsUpper ∘ jsUpper) = l.map jsUpper :=
    List.map_congr_left (fun a _ => jsUpper_idem a)
  rw [this]

theorem cleanChOf_length_le (l : List Char) : (cleanChOf l).length ≤ l.length := by
  unfold cleanChOf
  calc ((l.map jsUpper).filter (fun c => !isSepCh c)).length
      ≤ (l.map jsUpper).length := List.length_filter_le _ _
    _ = l.length := List.length_map l jsUpper

theorem cleanChOf_sub (l : List Char)
    (hfix : ∀ c ∈ l, jsUpper c = c ∧ isSepCh c = false) : cleanChOf l = l := by
  induction l with
  | nil => rfl
  | cons c t ih =>
    obtain ⟨h1, h2⟩ := hfix c (List.mem_cons_self c t)
    have ht := ih (fun d hd => hfix d (List.mem_cons_of_mem c hd))
    simp only [cleanChOf, List.map_cons, h1, List.filter_cons, h2,
      Bool.not_false, if_true]
    simpa [cleanChOf] using ht

theorem cleanChOf_fixed_pointwise (l : List Char) (h : cleanChOf l = l) :
    ∀ c ∈ l, jsUpper c = c ∧ isSepCh c = false := by
  induction l with
  | nil => intro c hc; cases hc
  | cons a t ih =>
    by_cases hs : isSepCh (jsUpper a) = true
    · exfalso
      rw [cleanChOf_cons_sep a t hs] at h
      have := cleanChOf_length_le t
      have h2 := congrArg List.length h
      simp at h2
      omega
    · have hb : (!isSepCh (jsUpper a)) = true := by simp [hs]
      have hc : cleanChOf (a :: t) = jsUpper a :: cleanChOf t := by
        simp only [cleanChOf, List.map_cons, List.filter_cons, hb, if_true]
      rw [hc] at h
      injection h with h1 h2
      intro c hcm
      rcases List.mem_cons.mp hcm with h3 | h3
      · subst h3
        refine ⟨h1, ?_⟩
        rw [← h1]
        simpa using hs
      · exact ih h2 c h3

theorem cleanChOf_idem (l : List Char) : cleanChOf (cleanChOf l) = cleanChOf l := by
  apply cleanChOf_sub
  intro c hc
  simp only [cleanChOf, List.mem_filter, List.mem_map] at hc
  obtain ⟨⟨b, hb, hbc⟩, hkeep⟩ := hc
  subst hbc
  exact ⟨jsUpper_idem b, by simpa using hkeep⟩

theorem stripNoise_mem (l : List Char) (c : Char) (hc : c ∈ stripNoise l) :
    c ∈ l := by
  unfold stripNoise at hc
  split at hc
  · exact List.mem_of_mem_take hc
  · split at hc
    · exact List.mem_of_mem_take hc
    · exact hc

theorem normalizeChannelId_def2 (x : String) (hx : x ≠ "") :
    normalizeChannelId x =
      (match objGet FLAT_CHANNELS ⟨cleanChOf x.data⟩ with
       | some v => v
       | none =>
         (objGet FLAT_CHANNELS ⟨stripNoise (cleanChOf x.data)⟩).getD
           ⟨stripNoise (cleanChOf x.data)⟩) := by
  unfold normalizeChannelId
  rw [if_neg hx]

theorem normalizeChannelId_eq_of_cleanCh (a b : List Char)
    (h : cleanChOf a = cleanChOf b) :
    normalizeChannelId ⟨a⟩ = normalizeChannelId ⟨b⟩ := by
  have hmk : ∀ l : List Char, (String.mk l = "") → l = [] := by
    intro l hh
    exact congrArg String.data hh
  have hempty : ∀ l : List Char, cleanChOf l = [] → normalizeChannelId ⟨l⟩ = "" := by
    intro l hcl
    by_cases hl : l = []
    · rw [hl]; rfl
    · rw [normalizeChannelId_def2 ⟨l⟩ (fun hc => hl (hmk l hc))]
      have hd : (String.mk l).data = l := rfl
      rw [hd, hcl]
      have h1 : objGet FLAT_CHANNELS ⟨([] : List Char)⟩ = none := by decide
      have h2 : stripNoise ([] : List Char) = [] := by decide
      rw [h2, h1]
      rfl
  by_cases ha : a = []
  · have hb0 : cleanChOf b = [] := by rw [← h, ha]; rfl
    rw [ha, hempty b hb0]
    rfl
  · by_cases hb : b = []
    · have ha0 : cleanChOf a = [] := by rw [h, hb]; rfl
      rw [hb, hempty a ha0]
      rfl
    · rw [normalizeChannelId_def2 ⟨a⟩ (fun hc => ha (hmk a hc)),
          normalizeChannelId_def2 ⟨b⟩ (fun hc => hb (hmk b hc))]
      have hda : (String.mk a).data = a := rfl
      have hdb : (String.mk b).data = b := rfl
      rw [hda, hdb, h]

theorem objSet_fold_values (v : String) (al : List String)
    (acc : List (String × String)) (q : String × String)
    (hq : q ∈ al.foldl (fun acc a => objSet acc (aliasKey a) v) acc) :
    q.2 = v ∨ q ∈ acc := by
  induction al generalizing acc with
  | nil => exact Or.inr hq
  | cons a t ih =>
    rcases ih (objSet acc (aliasKey a) v) hq with h | h
    · exact Or.inl h
    · rcases List.mem_cons.mp h with h2 | h2
      · left; rw [h2]
      · exact Or.inr h2

theorem flat_values (q : String × String) (hq : q ∈ FLAT_CHANNELS) :
    q.2 ∈ CHANNEL_ALIASES.map Prod.fst := by
  suffices h : ∀ (L : List (String × List String)) (acc : List (String × String)),
      (∀ r ∈ acc, r.2 ∈ CHANNEL_ALIASES.map Prod.fst) →
      (∀ p ∈ L, p.1 ∈ CHANNEL_ALIASES.map Prod.fst) →
      ∀ r ∈ L.foldl (fun acc p =>
        p.2.foldl (fun acc a => objSet acc (aliasKey a) p.1)
          (objSet acc (upperStr p.1) p.1)) acc,
        r.2 ∈ CHANNEL_ALIASES.map Prod.fst by
    exact h CHANNEL_ALIASES [] (fun r hr => absurd hr (List.not_mem_nil r))
      (fun p hp => List.mem_map_of_mem Prod.fst hp) q hq
  intro L
  induction L with
  | nil => intro acc hacc _ r hr; exact hacc r hr
  | cons p t ih =>
    intro acc hacc hL r hr
    refine ih _ ?_ (fun p2 hp2 => hL p2 (List.mem_cons_of_mem p hp2)) r hr
    intro r2 hr2
    rcases objSet_fold_values p.1 p.2 _ r2 hr2 with h | h
    · rw [h]; exact hL p (List.mem_cons_self p t)
    · rcases List.mem_cons.mp h with h2 | h2
      · rw [h2]; exact hL p (List.mem_cons_self p t)
      · exact hacc r2 h2

theorem std_facts :
    ∀ v ∈ CHANNEL_ALIASES.map Prod.fst,
      objGet FLAT_CHANNELS v = some v ∧ cleanChOf v.data = v.data ∧ v ≠ "" := by
  have hb : (CHANNEL_ALIASES.map Prod.fst).all
      (fun v => (objGet FLAT_CHANNELS v == some v) &&
        ((cleanChOf v.data == v.data) && !(v == ""))) = true := by decide
  intro v hv
  have hx := List.all_eq_true.mp hb v hv
  simp only [Bool.and_eq_true, beq_iff_eq, Bool.not_eq_true', beq_eq_false_iff_ne] at hx
  exact ⟨hx.1, hx.2.1, hx.2.2⟩

theorem normId_table_value (k v : String) (hk : objGet FLAT_CHANNELS k = some v) :
    normalizeChannelId v = v := by
  have hmem : v ∈ CHANNEL_ALIASES.map Prod.fst := by
    unfold objGet at hk
    cases hf : FLAT_CHANNELS.find? (fun p => p.1 == k) with
    | none => rw [hf] at hk; cases hk
    | some q =>
      rw [hf] at hk
      have hq : q ∈ FLAT_CHANNELS := List.mem_of_find?_eq_some hf
      have hv : q.2 = v := by simpa using hk
      rw [← hv]
      exact flat_values q hq
  obtain ⟨hvv, hclean, hne⟩ := std_facts v hmem
  rw [normalizeChannelId_def2 v hne]
  have he : String.mk (cleanChOf v.data) = v := by rw [hclean]
  rw [he, hvv]

/-! ## Claim C7 : channel name normalization -/

/-- C7: normalizeChannelId is insensitive to inserted spaces, hyphens,
    underscores and em-dashes, and to ASCII case, while preserving +:
    CCTV-1, CCTV 1 and cctv1 all normalize to the canonical key CCTV1, and
    CCTV5 and CCTV5+ normalize to two different keys. -/
theorem c7_normalizeSeparatorsCase :
    (∀ l₁ l₂ : List Char,
       normalizeChannelId ⟨l₁ ++ ' ' :: l₂⟩ = normalizeChannelId ⟨l₁ ++ l₂⟩) ∧
    (∀ l₁ l₂ : List Char,
       normalizeChannelId ⟨l₁ ++ '-' :: l₂⟩ = normalizeChannelId ⟨l₁ ++ l₂⟩) ∧
    (∀ l₁ l₂ : List Char,
       normalizeChannelId ⟨l₁ ++ '_' :: l₂⟩ = normalizeChannelId ⟨l₁ ++ l₂⟩) ∧
    (∀ l₁ l₂ : List Char,
       normalizeChannelId ⟨l₁ ++ '—' :: l₂⟩ = normalizeChannelId ⟨l₁ ++ l₂⟩) ∧
    (∀ l : List Char, normalizeChannelId ⟨l.map jsUpper⟩ = normalizeChannelId ⟨l⟩) ∧
    normalizeChannelId "CCTV-1" = "CCTV1" ∧
    normalizeChannelId "CCTV 1" = "CCTV1" ∧
    normalizeChannelId "cctv1" = "CCTV1" ∧
    normalizeChannelId "CCTV1" = "CCTV1" ∧
    normalizeChannelId "CCTV5" ≠ normalizeChannelId "CCTV5+" := by
  have hsep : ∀ c : Char, isSepCh (jsUpper c) = true →
      ∀ l₁ l₂ : List Char,
        normalizeChannelId ⟨l₁ ++ c :: l₂⟩ = normalizeChannelId ⟨l₁ ++ l₂⟩ := by
    intro c hc l₁ l₂
    apply normalizeChannelId_eq_of_cleanCh
    rw [cleanChOf_append, cleanChOf_append, cleanChOf_cons_sep c l₂ hc]
  refine ⟨hsep ' ' (by decide), hsep '-' (by decide), hsep '_' (by decide),
          hsep '—' (by decide),
          fun l => normalizeChannelId_eq_of_cleanCh _ _ (cleanChOf_map_jsUpper l),
          by decide, by decide, by decide, by decide, by decide⟩

/-! ## Claim C8 : normalization idempotence -/

/-- C8 (amended): normalizeChannelId is idempotent on every input whose
    result carries no residual noise suffix - in particular on all alias
    table hits (direct or after suffix stripping) and on best-effort keys
    not ending in a noise token.  The restriction is the amendment: a
    best-effort key can itself end in a second noise suffix, which the next
    application strips (see the counterexample). -/
theorem c8_normalizeIdem (x : String)
    (h : stripNoise (normalizeChannelId x).data = (normalizeChannelId x).data) :
    normalizeChannelId (normalizeChannelId x) = normalizeChannelId x := by
  by_cases hx : x = ""
  · subst hx
    decide
  · cases hlook : objGet FLAT_CHANNELS ⟨cleanChOf x.data⟩ with
    | some v =>
      have hr : normalizeChannelId x = v := by
        rw [normalizeChannelId_def2 x hx, hlook]
      rw [hr]
      exact normId_table_value _ v hlook
    | none =>
      cases hlook2 : objGet FLAT_CHANNELS ⟨stripNoise (cleanChOf x.data)⟩ with
      | some v =>
        have hr : normalizeChannelId x = v := by
          rw [normalizeChannelId_def2 x hx, hlook, hlook2]
          rfl
        rw [hr]
        exact normId_table_value _ v hlook2
      | none =>
        have hr : normalizeChannelId x = ⟨stripNoise (cleanChOf x.data)⟩ := by
          rw [normalizeChannelId_def2 x hx, hlook, hlook2]
          rfl
        by_cases hbn : stripNoise (cleanChOf x.data) = []
        · rw [hr, hbn]
          decide
        · have hclean_bn : cleanChOf (stripNoise (cleanChOf x.data)) =
              stripNoise (cleanChOf x.data) := by
            apply cleanChOf_sub
            intro c hc
            exact cleanChOf_fixed_pointwise (cleanChOf x.data)
              (cleanChOf_idem x.data) c (stripNoise_mem _ c hc)
          have hne : (⟨stripNoise (cleanChOf x.data)⟩ : String) ≠ "" := by
            intro hcon
            exact hbn (congrArg String.data hcon)
          have h2 : stripNoise (stripNoise (cleanChOf x.data)) =
              stripNoise (cleanChOf x.data) := by
            have h3 := h
            rw [hr] at h3
            exact h3
          rw [hr, normalizeChannelId_def2 _ hne]
          have hd : (String.mk (stripNoise (cleanChOf x.data))).data =
              stripNoise (cleanChOf x.data) := rfl
          rw [hd, hclean_bn, hlook2, h2, hlook2]
          rfl

/-- C8 witness: a concrete input resolving through the alias table. -/
theorem c8_normalizeIdem_witness :
    (stripNoise (normalizeChannelId "cctv 1").data = (normalizeChannelId "cctv 1").data) ∧
    normalizeChannelId (normalizeChannelId "cctv 1") = normalizeChannelId "cctv 1" :=
  ⟨by decide, c8_normalizeIdem "cctv 1" (by decide)⟩

/-- C8 counterexample to the claim as stated: FOOHDHD resolves to nothing
    and is returned as the best-effort key FOOHD (one noise suffix
    stripped), whose own normalization strips a second suffix, so the
    round trip is not idempotent. -/
theorem c8_cex :
    normalizeChannelId (normalizeChannelId "FOOHDHD") ≠
      normalizeChannelId "FOOHDHD" := by decide

/-! ## Lemmas for channel resolution and program extraction -/

theorem slowLoop_eq_find (xml normIn : List Char) :
    ∀ (fuel start : Nat),
      slowLoop xml normIn fuel start =
        ((chDeclsAux xml fuel start).find?
            (fun d => normalizeName d.name == normIn)).map
          (fun d => ⟨d.id, d.name, d.icon.getD []⟩) := by
  intro fuel
  induction fuel with
  | zero => intro start; rfl
  | succ n ih =>
    intro start
    simp only [slowLoop, chDeclsAux]
    cases nextChMatch xml (xml.length + 1) start with
    | none => rfl
    | some d =>
      simp only [List.find?]
      by_cases hd : normalizeName d.name = normIn
      · have hb : (normalizeName d.name == normIn) = true := by
          simpa using hd
        rw [if_pos hd, hb]
        rfl
      · have hb : (normalizeName d.name == normIn) = false := by
          simpa using hd
        rw [if_neg hd, hb]
        exact ih d.endPos

/-! ## Claim C6 : two-phase channel resolution -/

/-- C6: findChannelInfo first tries the exact fast path (display-name
    content equal, case-insensitively and trimmed, to the raw query,
    yielding that channel block's id and icon); only when that phase
    returns nothing does it scan the channel declarations in document
    order and return the first whose normalized display name equals the
    normalized query; when no declaration matches, the result is none
    (NotFound) - the function is total, so no error is possible. -/
theorem c6_twoPhaseResolution (xml q : List Char) :
    findChannelInfo xml q =
      (match fastPathA xml q with
       | some m => some m
       | none =>
         ((chDecls xml).find? (fun d => normalizeName d.name == normalizeName q)).map
           (fun d => ⟨d.id, d.name, d.icon.getD []⟩)) := by
  unfold findChannelInfo chDecls
  cases fastPathA xml q with
  | some m => rfl
  | none => exact slowLoop_eq_find xml (normalizeName q) (xml.length + 1) 0

theorem find?_eq_head_filter {α : Type} (p : α → Bool) (l : List α) :
    l.find? p = (l.filter p).head? := by
  induction l with
  | nil => rfl
  | cons a t ih =>
    cases hp : p a with
    | true =>
      rw [List.find?_cons_of_pos t hp, List.filter_cons_of_pos hp]
      rfl
    | false =>
      rw [List.find?_cons_of_neg t (by simp [hp]), List.filter_cons_of_neg (by simp [hp])]
      exact ih

theorem occs_pairwise (hay pat : List Char) : (occs hay pat).Pairwise (· < ·) :=
  (List.pairwise_lt_range _).sublist (List.filter_sublist _)

theorem sorted_filter_step (l : List Nat) (hs : l.Pairwise (· < ·)) :
    ∀ (start p : Nat) (rest : List Nat),
      l.filter (fun i => decide (start ≤ i)) = p :: rest →
      l.filter (fun i => decide (p + 1 ≤ i)) = rest := by
  induction l with
  | nil => intro start p rest h; cases h
  | cons a t ih =>
    have hlt : ∀ b ∈ t, a < b := (List.pairwise_cons.mp hs).1
    have hst : t.Pairwise (· < ·) := (List.pairwise_cons.mp hs).2
    intro start p rest h
    by_cases hsa : start ≤ a
    · rw [List.filter_cons_of_pos (by simpa using hsa)] at h
      injection h with h2 h3
      subst h2
      have ht_all : t.filter (fun i => decide (start ≤ i)) = t :=
        List.filter_eq_self.mpr (fun b hb => by
          have hab := hlt b hb
          simp only [decide_eq_true_eq]
          omega)
      rw [List.filter_cons_of_neg (by
        simp only [decide_eq_true_eq]
        omega)]
      rw [ht_all] at h3
      subst h3
      exact List.filter_eq_self.mpr (fun b hb => by
        have hab := hlt b hb
        simp only [decide_eq_true_eq]
        omega)
    · rw [List.filter_cons_of_neg (by simpa using hsa)] at h
      have hmem : p ∈ t := by
        have hp : p ∈ t.filter (fun i => decide (start ≤ i)) := by
          rw [h]
          exact List.mem_cons_self _ _
        exact List.mem_of_mem_filter hp
      rw [List.filter_cons_of_neg (by
        have hap := hlt p hmem
        simp only [decide_eq_true_eq]
        omega)]
      exact ih hst start p rest h

theorem extractLoop_eq (xml attr compact : List Char) :
    ∀ (fuel start : Nat),
      ((occs xml attr).filter (fun i => decide (start ≤ i))).length < fuel →
      extractLoop xml attr compact fuel (firstFrom xml attr start) =
        ((occs xml attr).filter (fun i => decide (start ≤ i))).filterMap
          (fun pos => progAt xml pos compact) := by
  intro fuel
  induction fuel with
  | zero => intro start h; exact absurd h (Nat.not_lt_zero _)
  | succ n ih =>
    intro start h
    have hff : firstFrom xml attr start =
        ((occs xml attr).filter (fun i => decide (start ≤ i))).head? :=
      find?_eq_head_filter _ _
    cases hf : (occs xml attr).filter (fun i => decide (start ≤ i)) with
    | nil =>
      rw [hff, hf]
      rfl
    | cons p rest =>
      rw [hff, hf]
      simp only [List.head?, extractLoop]
      have hrest : (occs xml attr).filter (fun i => decide (p + 1 ≤ i)) = rest :=
        sorted_filter_step _ (occs_pairwise xml attr) start p rest hf
      have hlen : ((occs xml attr).filter (fun i => decide (p + 1 ≤ i))).length < n := by
        rw [hrest]
        have hl := congrArg List.length hf
        simp at hl
        omega
      have hrec := ih (p + 1) hlen
      rw [hrest] at hrec
      rw [hrec]
      cases hpa : progAt xml p compact <;> simp [List.filterMap_cons, hpa]

theorem extractPrograms_eq (xml channelId targetDateStr : List Char) :
    extractPrograms xml channelId targetDateStr =
      (occs xml (channelAttr channelId)).filterMap
        (fun pos => progAt xml pos (targetDateStr.filter (fun c => c != '-'))) := by
  show extractLoop xml (channelAttr channelId)
        (targetDateStr.filter (fun c => c != '-')) (xml.length + 2)
        (firstFrom xml (channelAttr channelId) 0) = _
  have h0 : (occs xml (channelAttr channelId)).filter (fun i => decide (0 ≤ i)) =
      occs xml (channelAttr channelId) :=
    List.filter_eq_self.mpr (fun b _ => by simp)
  have hlen : ((occs xml (channelAttr channelId)).filter
      (fun i => decide (0 ≤ i))).length < xml.length + 2 := by
    rw [h0]
    have h1 : (occs xml (channelAttr channelId)).length ≤ xml.length + 1 := by
      have h2 := List.length_filter_le
        (fun i => (channelAttr channelId).isPrefixOf (xml.drop i))
        (List.range (xml.length + 1))
      simpa [occs] using h2
    omega
  have hmain := extractLoop_eq xml (channelAttr channelId)
    (targetDateStr.filter (fun c => c != '-')) (xml.length + 2) 0 hlen
  rw [h0] at hmain
  exact hmain

/-! ## Claim C9 : program extraction -/

/-- C9: extractPrograms returns exactly the entries produced at the
    occurrences of the channel attribute, in document order (the occurrence
    list is strictly increasing and no sorting is applied): at each
    occurrence the enclosing programme block is located and kept only when
    its start capture begins with the compact YYYYMMDD date, and each kept
    entry is built by mkProgEntry, whose start and end fields come from
    formatTime (characters 8-12 of the timestamp as HH:MM) and whose title
    and desc are CDATA-stripped and trimmed by cleanContent; a timestamp
    shorter than 12 characters formats to the empty string, and the
    spec scenario documents evaluate to the expected single entry and to
    the empty list on a date mismatch. -/
theorem c9_extractPrograms :
    (∀ xml channelId targetDateStr : List Char,
       extractPrograms xml channelId targetDateStr =
         (occs xml (channelAttr channelId)).filterMap
           (fun pos => progAt xml pos (targetDateStr.filter (fun c => c != '-')))) ∧
    (∀ xml channelId : List Char,
       (occs xml (channelAttr channelId)).Pairwise (· < ·)) ∧
    (∀ raw : List Char, raw.length < 12 → formatTime raw = []) ∧
    extractPrograms ("<tv><channel id=\"c1\"><display-name>CCTV1</display-name></channel><programme start=\"20240124083000 +0800\" stop=\"20240124090000 +0800\" channel=\"c1\"><title>News</title></programme></tv>").data
        "c1".data "2024-01-24".data =
      [⟨"08:30".data, "09:00".data, "News".data, []⟩] ∧
    extractPrograms ("<tv><channel id=\"c1\"><display-name>CCTV1</display-name></channel><programme start=\"20240124083000 +0800\" stop=\"20240124090000 +0800\" channel=\"c1\"><title>News</title></programme></tv>").data
        "c1".data "2024-01-25".data = [] := by
  refine ⟨extractPrograms_eq, fun xml channelId => occs_pairwise _ _, ?_,
    by decide, by decide⟩
  intro raw h
  unfold formatTime
  rw [if_pos h]

/-- C9 witness: a short timestamp formats to the empty string. -/
theorem c9_extractPrograms_witness :
    ("2024".data.length < 12) ∧ formatTime "2024".data = [] :=
  ⟨by decide, c9_extractPrograms.2.2.1 "2024".data (by decide)⟩

/-! ## Claim C10 : placeholder title, empty description -/

/-- C10: an entry whose programme block has no title capture gets the
    literal placeholder 节目 as its title, and one with no desc capture
    gets the empty description; a programme lacking both, when extracted
    end to end, yields exactly that entry. -/
theorem c10_missingTitleDefaults :
    (∀ progStr st : List Char,
       lazyCapture progStr titleOpenL titleCloseL (progStr.length + 1) 0 = none →
       (mkProgEntry progStr st).title = "节目".data) ∧
    (∀ progStr st : List Char,
       lazyCapture progStr descOpenL descCloseL (progStr.length + 1) 0 = none →
       (mkProgEntry progStr st).desc = []) ∧
    extractPrograms ("<tv><programme start=\"20240124100000 +0800\" channel=\"c1\"></programme></tv>").data
        "c1".data "2024-01-24".data =
      [⟨"10:00".data, [], "节目".data, []⟩] := by
  refine ⟨?_, ?_, by decide⟩
  · intro progStr st h
    simp only [mkProgEntry, h]
  · intro progStr st h
    simp only [mkProgEntry, h]

/-- C10 witness: a block with no title element gets the placeholder. -/
theorem c10_missingTitleDefaults_witness :
    (lazyCapture "<x>".data titleOpenL titleCloseL ("<x>".data.length + 1) 0 = none) ∧
    (mkProgEntry "<x>".data "20240124083000".data).title = "节目".data :=
  ⟨by decide, c10_missingTitleDefaults.1 "<x>".data "20240124083000".data (by decide)⟩
